import Mathlib

/-!
Verification of the retrieval-and-analysis engine of the code-assistant
repository: a shallow embedding in Lean 4 of the file-corpus accessor
(`mcp_servers/filesystem_server.py`), the code analyzer
(`mcp_servers/code_analyzer.py`), and the agent pipeline stages
(`backend/agent.py`), together with theorems settling the specification
claims about them.
-/

namespace CodeAssistant

/-! ## Paths and the filesystem model

A filesystem path is a list of components (pathlib `Path.parts` without the
root anchor).  `pathlib` keeps `".."` components unresolved; the operating
system resolves them only when the path is actually accessed (`exists()`,
`open()`).  `normalizePath` models that OS-level resolution. -/

abbrev PathC := List String

/-- One step of OS path resolution: `".."` removes the last component
(at the root it is a no-op, as on POSIX), any other component is appended. -/
def normStep (stack : PathC) (c : String) : PathC :=
  if c = ".." then stack.dropLast else stack ++ [c]

/-- OS-level resolution of `".."` components, as performed by `stat`/`open`
when every intermediate directory exists. -/
def normalizePath (p : PathC) : PathC := p.foldl normStep []

/-- An in-memory filesystem: a finite association of absolute, already
normalized file paths to their text content. -/
structure FileSys where
  entries : List (PathC × String)
deriving DecidableEq

/-- Content stored at absolute path `p`, if any (first entry wins). -/
def FileSys.lookup (fs : FileSys) (p : PathC) : Option String :=
  (fs.entries.find? (fun e => decide (e.1 = p))).map (·.2)

/-- Python `PurePath.is_relative_to`: a purely lexical check on the parsed
components — `".."` components are NOT resolved before comparing. -/
def is_relative_to (p base : PathC) : Bool := base.isPrefixOf p

/-! ## Python `str.splitlines`

`splitOnNl` splits a character list at every newline (keeping a final,
possibly empty, segment); `splitlines` additionally drops a trailing empty
segment, matching Python's `str.splitlines()` for `"\n"`-separated text. -/

def splitOnNl : List Char → List (List Char)
  | [] => [[]]
  | c :: cs =>
    if c = '\n' then [] :: splitOnNl cs
    else
      match splitOnNl cs with
      | [] => [[c]]
      | l :: ls => (c :: l) :: ls

def splitlinesL (cs : List Char) : List (List Char) :=
  let parts := splitOnNl cs
  if parts.getLast? = some [] then parts.dropLast else parts

/-- `content.splitlines()` on a Lean `String`. -/
def splitlines (s : String) : List String :=
  (splitlinesL s.data).map (fun l => ⟨l⟩)

/-! ## `FileSystemMCP.read_file` -/

/-- Result of `FileSystemMCP.read_file`: either the content record
(`path`, `content`, `lines`, `size`) or one of the error dictionaries the
method returns. -/
inductive ReadResult where
  | ok (path : PathC) (content : String) (lines : Nat) (size : Nat)
  | errNotFound (path : PathC)
  | errAccessDenied
deriving DecidableEq

/-- Embedding of `FileSystemMCP.read_file`.  `repo` is `self.repo_path`
(absolute, normalized), `file_path` the relative argument.  The joined path
is `repo ++ file_path` (pathlib `/` on a relative right operand).  Mirroring
the source: the existence check runs first (OS-resolved), then the lexical
`is_relative_to` containment check, then the content is returned. -/
def read_file (fs : FileSys) (repo : PathC) (file_path : PathC) : ReadResult :=
  match fs.lookup (normalizePath (repo ++ file_path)) with
  | none => .errNotFound file_path
  | some content =>
    if ¬ is_relative_to (repo ++ file_path) repo then .errAccessDenied
    else .ok file_path content (splitlines content).length content.length

/-! ## Concrete scenario for the path-escape boundary claim -/

/-- Content of the system password file in the boundary scenario. -/
def passwdContent : String := "root:x:0:0:root:/root:/bin/bash"

/-- A filesystem holding `/etc/passwd` plus a file inside the repository
root `/home/user/repo`. -/
def escapeFS : FileSys :=
  ⟨[(["etc", "passwd"], passwdContent),
    (["home", "user", "repo", "main.py"], "print(1)\n")]⟩

/-- The repository root used in the boundary scenario. -/
def escapeRepo : PathC := ["home", "user", "repo"]

/-- The escaping request `../../../etc/passwd`, relative to the root. -/
def escapePath : PathC := ["..", "..", "..", "etc", "passwd"]

/-- C1: the claim demands an access-denied result for a `..` escape; the
code instead returns the target file's content.  The joined path
`repo/../../../etc/passwd` exists once the OS resolves `..`, so the
not-found branch is skipped, and pathlib's `is_relative_to` is a lexical
prefix check on the unresolved parts — `repo ++ rest` always starts with
`repo`, so the access-denied branch never fires and the content of
`/etc/passwd` is returned. -/
theorem read_file_escape_returns_content :
    read_file escapeFS escapeRepo escapePath =
      .ok escapePath passwdContent 1 passwdContent.length ∧
    read_file escapeFS escapeRepo escapePath ≠ .errAccessDenied := by
  constructor
  · rfl
  · decide

/-- C10: `read_file` checks existence before containment, so a request
whose OS-resolved location is absent from the filesystem yields the
not-found error — never the access-denied error — even when the path
walks out of the repository root via `..`. -/
theorem read_file_missing_is_not_found (fs : FileSys) (repo file_path : PathC)
    (h : fs.lookup (normalizePath (repo ++ file_path)) = none) :
    read_file fs repo file_path = .errNotFound file_path := by
  unfold read_file
  simp only [h]

/-- Witness for C10 at a concrete input whose path leaves the root via
`..` and whose resolved target does not exist. -/
theorem read_file_missing_is_not_found_witness :
    escapeFS.lookup
      (normalizePath (escapeRepo ++ ["..", "..", "secret.txt"])) = none ∧
    read_file escapeFS escapeRepo ["..", "..", "secret.txt"] =
      .errNotFound ["..", "..", "secret.txt"] :=
  ⟨by decide,
   read_file_missing_is_not_found escapeFS escapeRepo ["..", "..", "secret.txt"]
     (by decide)⟩

/-! ## `CodeAssistantAgent.plan_search` -/

/-- Python `str.lower()` (ASCII range), written to be kernel-reducible. -/
def strToLower (s : String) : String := ⟨s.data.map Char.toLower⟩

/-- `startsWithL pat l` checks that `pat` is a prefix of `l`. -/
def startsWithL : List Char → List Char → Bool
  | [], _ => true
  | _ :: _, [] => false
  | a :: as, b :: bs => a == b && startsWithL as bs

/-- Python substring test `sub in s`: `sub` occurs contiguously in `s`. -/
def containsSub (s sub : String) : Bool :=
  s.data.tails.any (fun t => startsWithL sub.data t)

/-- The `search_plan` dictionary built by `plan_search`. -/
structure SearchPlan where
  patterns : List String
  keywords : List String
  file_types : List String
deriving DecidableEq

/-- Embedding of `CodeAssistantAgent.plan_search`'s decision chain: the
keyword-gated intent classification on the lowercased query, first match
wins, with the literal keyword/pattern tables of the source. -/
def plan_search (user_query : String) : SearchPlan :=
  let lq := strToLower user_query
  if containsSub lq "authentication" || containsSub lq "auth" then
    { patterns := ["*auth*.py", "*login*.py"],
      keywords := ["auth", "login", "password", "token"], file_types := [] }
  else if containsSub lq "database" || containsSub lq "sql" then
    { patterns := ["*db*.py", "*model*.py"],
      keywords := ["db", "database", "query", "sql"], file_types := [] }
  else if containsSub lq "api" || containsSub lq "endpoint" then
    { patterns := ["*api*.py", "*route*.py", "*views*.py"],
      keywords := ["api", "route", "endpoint", "@app"], file_types := [] }
  else if containsSub lq "bug" || containsSub lq "error" then
    { patterns := [], keywords := ["error", "exception", "try", "except"],
      file_types := [".py", ".js"] }
  else
    { patterns := ["*.py", "*.js"], keywords := [], file_types := [] }

/-- C2: any query containing `auth` or `authentication` case-insensitively
is routed to the authentication branch, whose keyword list is exactly
`[auth, login, password, token]` and whose pattern list is exactly
`[*auth*.py, *login*.py]`, in that order. -/
theorem plan_search_auth (q : String)
    (h : containsSub (strToLower q) "auth" = true ∨
         containsSub (strToLower q) "authentication" = true) :
    (plan_search q).keywords = ["auth", "login", "password", "token"] ∧
    (plan_search q).patterns = ["*auth*.py", "*login*.py"] := by
  unfold plan_search
  rcases h with h | h <;> simp [h]

/-- Witness for C2 on the query `How does AUTH work?`. -/
theorem plan_search_auth_witness :
    (containsSub (strToLower "How does AUTH work?") "auth" = true ∨
     containsSub (strToLower "How does AUTH work?") "authentication" = true) ∧
    (plan_search "How does AUTH work?").keywords =
      ["auth", "login", "password", "token"] ∧
    (plan_search "How does AUTH work?").patterns =
      ["*auth*.py", "*login*.py"] :=
  ⟨Or.inl (by decide), plan_search_auth "How does AUTH work?" (Or.inl (by decide))⟩

/-! ## `CodeAssistantAgent.execute_search` -/

/-- One item of a GitHub code-search API response. -/
structure GhItem where
  name : String
  path : String
  url : String
deriving DecidableEq

/-- One entry of the list `GitHubMCP.search_code` returns: a hit record or
the error dictionary for a non-success response. -/
inductive GhResult where
  | item (name path url : String)
  | error (msg : String)
deriving DecidableEq

/-- Embedding of `GitHubMCP.search_code`: on a successful response it keeps
at most the first 10 items; otherwise it returns a single error entry.
`response` abstracts the HTTP call (`none` = non-200 status or exception). -/
def github_search_code (response : Option (List GhItem)) : List GhResult :=
  match response with
  | some items => (items.take 10).map (fun i => .item i.name i.path i.url)
  | none => [.error "Search failed"]

/-- Embedding of the local-accessor branch of
`CodeAssistantAgent.execute_search` (`self.fs_mcp` present): at most 5
patterns listed keeping at most 10 descriptors each, at most 3 keywords
searched keeping at most 20 matches each.  `listFiles` and `searchInFiles`
abstract the corpus accessor. -/
def execute_search_local (listFiles : String → List α)
    (searchInFiles : String → List β) (plan : SearchPlan) :
    List α × List β :=
  ((plan.patterns.take 5).foldl (fun acc p => acc ++ (listFiles p).take 10) [],
   (plan.keywords.take 3).foldl (fun acc k => acc ++ (searchInFiles k).take 20) [])

/-- Embedding of the remote branch of `CodeAssistantAgent.execute_search`
(no local corpus): at most 3 keywords, each searched through
`github_search_code`; the per-keyword results are appended uncapped.
`ghResponse` abstracts the API response per query. -/
def execute_search_github (ghResponse : String → Option (List GhItem))
    (plan : SearchPlan) : List GhResult :=
  (plan.keywords.take 3).foldl
    (fun acc k => acc ++ github_search_code (ghResponse k)) []

/-- Length of a fold that appends `g x` for each element of `l`. -/
theorem foldl_append_length_le {γ δ : Type} (g : γ → List δ) (k : Nat)
    (l : List γ) (h : ∀ x ∈ l, (g x).length ≤ k) (init : List δ) :
    (l.foldl (fun acc x => acc ++ g x) init).length ≤
      init.length + l.length * k := by
  induction l generalizing init with
  | nil => simp
  | cons x xs ih =>
    have hx := h x (List.mem_cons_self x xs)
    have hxs : ∀ y ∈ xs, (g y).length ≤ k := fun y hy => h y (List.mem_cons_of_mem x hy)
    have := ih hxs (init ++ g x)
    simp only [List.foldl_cons, List.length_append, List.length_cons] at *
    calc ((xs.foldl (fun acc y => acc ++ g y) (init ++ g x)).length)
        ≤ init.length + (g x).length + xs.length * k := this
      _ ≤ init.length + (xs.length + 1) * k := by nlinarith


/-- C3: fan-out bounds of `execute_search`.  In the local branch at most 5
patterns are listed (≤10 descriptors kept each) and at most 3 keywords are
searched (≤20 matches kept each), so the file list has at most 50 entries
and the match list at most 60; the remote branch searches at most 3
keywords whose per-keyword result is itself capped, so its match list also
stays within 60. -/
theorem execute_search_bounds {α β : Type} (listFiles : String → List α)
    (searchInFiles : String → List β)
    (ghResponse : String → Option (List GhItem)) (plan : SearchPlan) :
    (plan.patterns.take 5).length ≤ 5 ∧
    (∀ p, ((listFiles p).take 10).length ≤ 10) ∧
    (plan.keywords.take 3).length ≤ 3 ∧
    (∀ k, ((searchInFiles k).take 20).length ≤ 20) ∧
    (execute_search_local listFiles searchInFiles plan).1.length ≤ 50 ∧
    (execute_search_local listFiles searchInFiles plan).2.length ≤ 60 ∧
    (execute_search_github ghResponse plan).length ≤ 60 := by
  refine ⟨?_, ?_, ?_, ?_, ?_, ?_, ?_⟩
  · exact le_trans (List.length_take_le 5 plan.patterns) (le_refl 5)
  · intro p; exact le_trans (List.length_take_le 10 (listFiles p)) (le_refl 10)
  · exact le_trans (List.length_take_le 3 plan.keywords) (le_refl 3)
  · intro k; exact le_trans (List.length_take_le 20 (searchInFiles k)) (le_refl 20)
  · have h := foldl_append_length_le (fun p => (listFiles p).take 10) 10
      (plan.patterns.take 5) (fun p _ => List.length_take_le 10 (listFiles p)) []
    have hl : (plan.patterns.take 5).length ≤ 5 := List.length_take_le 5 plan.patterns
    calc (execute_search_local listFiles searchInFiles plan).1.length
        ≤ ([] : List α).length + (plan.patterns.take 5).length * 10 := h
      _ ≤ 50 := by simp; omega
  · have h := foldl_append_length_le (fun k => (searchInFiles k).take 20) 20
      (plan.keywords.take 3) (fun k _ => List.length_take_le 20 (searchInFiles k)) []
    have hl : (plan.keywords.take 3).length ≤ 3 := List.length_take_le 3 plan.keywords
    calc (execute_search_local listFiles searchInFiles plan).2.length
        ≤ ([] : List β).length + (plan.keywords.take 3).length * 20 := h
      _ ≤ 60 := by simp; omega
  · have hcap : ∀ k, (github_search_code (ghResponse k)).length ≤ 20 := by
      intro k
      unfold github_search_code
      cases ghResponse k with
      | none => simp
      | some items =>
        simp only [List.length_map]
        exact le_trans (List.length_take_le 10 items) (by omega)
    have h := foldl_append_length_le (fun k => github_search_code (ghResponse k)) 20
      (plan.keywords.take 3) (fun k _ => hcap k) []
    have hl : (plan.keywords.take 3).length ≤ 3 := List.length_take_le 3 plan.keywords
    calc (execute_search_github ghResponse plan).length
        ≤ ([] : List GhResult).length + (plan.keywords.take 3).length * 20 := h
      _ ≤ 60 := by simp; omega

/-! ## `CodeAnalyzerMCP._detect_python_issues` -/

/-- One issue dictionary produced by the detector. -/
structure Issue where
  type : String
  severity : String
  line : Nat
  message : String
  suggestion : String
deriving DecidableEq

/-- Python regex `\\s` (ASCII range): the whitespace class used by the
hardcoded-password pattern. -/
def isPySpace (c : Char) : Bool :=
  c = ' ' || c = '\t' || c = '\n' || c = '\r' || c = '\x0b' || c = '\x0c'

/-- Does `password\\s*=\\s*["']` (with `re.IGNORECASE`) match at the head
of `cs`? -/
def pwdMatchAt (cs : List Char) : Bool :=
  ((cs.take 8).map Char.toLower == "password".data) &&
    (match (cs.drop 8).dropWhile isPySpace with
     | '=' :: rest =>
       match rest.dropWhile isPySpace with
       | c :: _ => c == '"' || c == '\''
       | [] => false
     | _ => false)

/-- `re.search` of the hardcoded-password pattern: a match at any start
position of the line. -/
def pwdSearch (line : String) : Bool := line.data.tails.any pwdMatchAt

/-- `'eval(' in line`. -/
def evalCheck (line : String) : Bool := containsSub line "eval("

/-- `'exec(' in line`. -/
def execCheck (line : String) : Bool := containsSub line "exec("

/-- `'TODO' in line or 'FIXME' in line`. -/
def todoCheck (line : String) : Bool :=
  containsSub line "TODO" || containsSub line "FIXME"

/-- The issues one line contributes, in the fixed rule order of the
source (`eval`, `exec`, hardcoded password, TODO/FIXME, line length). -/
def lineIssues (line_num : Nat) (line : String) : List Issue :=
  (if evalCheck line then
    [⟨"security", "high", line_num, "Use of eval() is dangerous",
      "Consider using ast.literal_eval() or safer alternatives"⟩] else []) ++
  (if execCheck line then
    [⟨"security", "high", line_num, "Use of exec() is dangerous",
      "Avoid dynamic code execution"⟩] else []) ++
  (if pwdSearch line then
    [⟨"security", "critical", line_num, "Hardcoded password detected",
      "Use environment variables or secure secret management"⟩] else []) ++
  (if todoCheck line then
    [⟨"maintenance", "low", line_num, "TODO/FIXME comment found",
      "Address this comment or create a ticket"⟩] else []) ++
  (if 120 < line.length then
    [⟨"style", "low", line_num,
      "Line too long (" ++ toString (line.length) ++ " characters)",
      "Break into multiple lines (PEP 8 recommends max 79-120)"⟩] else [])

/-- Embedding of `CodeAnalyzerMCP._detect_python_issues`: enumerate the
lines from 1 and accumulate each line's issues in order. -/
def detect_python_issues (content : String) : List Issue :=
  ((splitlines content).enumFrom 1).foldl
    (fun acc p => acc ++ lineIssues p.1 p.2) []

/-! ### Structural lemmas about line splitting and the detector -/

theorem splitOnNl_ne_nil (cs : List Char) : splitOnNl cs ≠ [] := by
  induction cs with
  | nil => simp [splitOnNl]
  | cons c cs ih =>
    unfold splitOnNl
    by_cases h : c = '\n'
    · simp [h]
    · simp only [h, if_false]
      cases hs : splitOnNl cs <;> simp

theorem length_splitOnNl (cs : List Char) :
    (splitOnNl cs).length = cs.count '\n' + 1 := by
  induction cs with
  | nil => simp [splitOnNl]
  | cons c cs ih =>
    unfold splitOnNl
    by_cases h : c = '\n'
    · simp [h, ih, List.count_cons]
    · simp only [h, if_false]
      cases hs : splitOnNl cs with
      | nil => exact absurd hs (splitOnNl_ne_nil cs)
      | cons l ls =>
        rw [hs] at ih
        simp only [List.length_cons] at ih ⊢
        rw [List.count_cons]
        simpa [h] using ih

theorem getLast_splitOnNl_of_nl (cs : List Char)
    (h : cs.getLast? = some '\n') : (splitOnNl cs).getLast? = some [] := by
  induction cs with
  | nil => simp at h
  | cons c cs ih =>
    cases cs with
    | nil =>
      simp only [List.getLast?_singleton, Option.some_inj] at h
      subst h
      simp [splitOnNl]
    | cons d ds =>
      have h' : (d :: ds).getLast? = some '\n' := by
        rwa [List.getLast?_cons_cons] at h
      have ihd := ih h'
      unfold splitOnNl
      by_cases hc : c = '\n'
      · simp only [hc, if_true]
        cases hs : splitOnNl (d :: ds) with
        | nil => exact absurd hs (splitOnNl_ne_nil _)
        | cons l ls =>
          rw [hs] at ihd
          rw [List.getLast?_cons_cons]
          exact ihd
      · simp only [hc, if_false]
        cases hs : splitOnNl (d :: ds) with
        | nil => exact absurd hs (splitOnNl_ne_nil _)
        | cons l ls =>
          rw [hs] at ihd
          cases ls with
          | nil =>
            exfalso
            have hcount := length_splitOnNl (d :: ds)
            rw [hs] at hcount
            simp only [List.length_singleton] at hcount
            have : (d :: ds).count '\n' = 0 := by omega
            have hmem : '\n' ∈ d :: ds := List.mem_of_mem_getLast? h'
            rw [← List.count_pos_iff] at hmem
            omega
          | cons m ms => simpa using ihd

theorem splitOnNl_append (A B : List Char) (h : A.getLast? = some '\n') :
    splitOnNl (A ++ B) = (splitOnNl A).dropLast ++ splitOnNl B := by
  induction A with
  | nil => simp at h
  | cons c A ih =>
    cases A with
    | nil =>
      simp only [List.getLast?_singleton, Option.some_inj] at h
      subst h
      simp [splitOnNl]
    | cons d ds =>
      have h' : (d :: ds).getLast? = some '\n' := by
        rwa [List.getLast?_cons_cons] at h
      have ihd := ih h'
      by_cases hc : c = '\n'
      · subst hc
        show splitOnNl ('\n' :: (d :: ds ++ B)) = _
        rw [show splitOnNl ('\n' :: (d :: ds ++ B)) =
              [] :: splitOnNl (d :: ds ++ B) from by simp [splitOnNl]]
        rw [ihd]
        cases hs : splitOnNl (d :: ds) with
        | nil => exact absurd hs (splitOnNl_ne_nil _)
        | cons l ls =>
          rw [show splitOnNl ('\n' :: d :: ds) = [] :: splitOnNl (d :: ds) from by
                simp [splitOnNl]]
          rw [hs]
          rfl
      · cases hs : splitOnNl (d :: ds) with
        | nil => exact absurd hs (splitOnNl_ne_nil _)
        | cons l ls =>
          cases ls with
          | nil =>
            exfalso
            have hcount := length_splitOnNl (d :: ds)
            rw [hs] at hcount
            simp only [List.length_singleton] at hcount
            have hmem : '\n' ∈ d :: ds := List.mem_of_mem_getLast? h'
            rw [← List.count_pos_iff] at hmem
            omega
          | cons m ms =>
            have e1 : splitOnNl (c :: (d :: ds ++ B)) =
                match splitOnNl (d :: ds ++ B) with
                | [] => [[c]]
                | l :: ls => (c :: l) :: ls := by
              simp [splitOnNl, hc]
            have e2 : splitOnNl (c :: d :: ds) =
                match splitOnNl (d :: ds) with
                | [] => [[c]]
                | l :: ls => (c :: l) :: ls := by
              simp [splitOnNl, hc]
            rw [List.cons_append, e1, ihd, hs, e2, hs]
            simp

theorem splitlinesL_of_nl (cs : List Char) (h : cs.getLast? = some '\n') :
    splitlinesL cs = (splitOnNl cs).dropLast := by
  unfold splitlinesL
  simp [getLast_splitOnNl_of_nl cs h]

theorem splitlinesL_def (cs : List Char) :
    splitlinesL cs =
      if (splitOnNl cs).getLast? = some [] then (splitOnNl cs).dropLast
      else splitOnNl cs := rfl

theorem splitlinesL_append (A B : List Char) (h : A.getLast? = some '\n') :
    splitlinesL (A ++ B) = splitlinesL A ++ splitlinesL B := by
  have hB := splitOnNl_ne_nil B
  rw [splitlinesL_of_nl A h, splitlinesL_def, splitOnNl_append A B h,
    List.getLast?_append_of_ne_nil _ hB, splitlinesL_def]
  by_cases hb : (splitOnNl B).getLast? = some []
  · simp [hb, List.dropLast_append_of_ne_nil _ hB]
  · simp [hb]

theorem splitlines_append (A B : String) (h : A.data.getLast? = some '\n') :
    splitlines (A ++ B) = splitlines A ++ splitlines B := by
  unfold splitlines
  rw [String.data_append, splitlinesL_append A.data B.data h, List.map_append]

theorem foldl_append_eq_flatMap {γ δ : Type} (f : γ → List δ)
    (l : List γ) (init : List δ) :
    l.foldl (fun acc x => acc ++ f x) init = init ++ l.flatMap f := by
  induction l generalizing init with
  | nil => simp
  | cons x xs ih => simp [ih, List.append_assoc]

theorem detect_eq_flatMap (content : String) :
    detect_python_issues content =
      ((splitlines content).enumFrom 1).flatMap (fun p => lineIssues p.1 p.2) := by
  unfold detect_python_issues
  rw [foldl_append_eq_flatMap]
  simp

theorem enumFrom_append' {α : Type} (l₁ l₂ : List α) (n : Nat) :
    (l₁ ++ l₂).enumFrom n = l₁.enumFrom n ++ l₂.enumFrom (n + l₁.length) := by
  induction l₁ generalizing n with
  | nil => simp
  | cons x xs ih =>
    simp only [List.cons_append, List.enumFrom_cons, ih (n + 1),
      List.length_cons]
    rw [show n + 1 + xs.length = n + (xs.length + 1) from by omega]

theorem flatMap_enumFrom_shift {α δ : Type} (g : Nat → α → List δ)
    (l : List α) (n k : Nat) :
    (l.enumFrom (n + k)).flatMap (fun p => g p.1 p.2) =
      (l.enumFrom n).flatMap (fun p => g (p.1 + k) p.2) := by
  induction l generalizing n with
  | nil => simp
  | cons x xs ih =>
    simp only [List.enumFrom_cons, List.flatMap_cons]
    rw [show n + k + 1 = (n + 1) + k from by omega, ih (n + 1)]

/-- Shifting the line number shifts every issue of a line uniformly: the
rule set reads only the line text, never the line number. -/
theorem lineIssues_shift (n k : Nat) (line : String) :
    lineIssues (n + k) line =
      (lineIssues n line).map (fun i => { i with line := i.line + k }) := by
  unfold lineIssues
  by_cases h1 : evalCheck line <;> by_cases h2 : execCheck line <;>
    by_cases h3 : pwdSearch line <;> by_cases h4 : todoCheck line <;>
    by_cases h5 : 120 < line.length <;>
    simp [h1, h2, h3, h4, h5]

/-- C5 counterexample: issue detection is NOT stable under raw string
concatenation.  Neither `"eva"` nor `"l(x)"` contains an issue, but their
concatenation `"eval(x)"` forms an `eval(` call on the merged line, so an
issue appears that is in neither side's issue list. -/
theorem detect_concat_counterexample :
    detect_python_issues ("eva" ++ "l(x)") ≠
      detect_python_issues "eva" ++
        (detect_python_issues "l(x)").map
          (fun i => { i with line := i.line + (splitlines "eva").length }) := by
  decide

/-- C5 amended: when the first content ends with a newline — so that
concatenation does not merge its last line with the second content's first
line — detection distributes over concatenation: the result is the first
content's issues followed by the second content's issues with every line
number offset by the first content's line count. -/
theorem detect_concat_of_trailing_newline (A B : String)
    (h : A.data.getLast? = some '\n') :
    detect_python_issues (A ++ B) =
      detect_python_issues A ++
        (detect_python_issues B).map
          (fun i => { i with line := i.line + (splitlines A).length }) := by
  rw [detect_eq_flatMap, detect_eq_flatMap, detect_eq_flatMap,
    splitlines_append A B h, enumFrom_append', List.flatMap_append]
  congr 1
  rw [flatMap_enumFrom_shift (fun n line => lineIssues n line),
    List.map_flatMap]
  congr 1
  funext p
  exact lineIssues_shift p.1 (splitlines A).length p.2

/-- Witness for the amended C5 at concrete contents: the first ends with a
newline and the second contains an `eval(` issue, whose line number is
offset by the first content's line count. -/
theorem detect_concat_of_trailing_newline_witness :
    ("x = 1\n" : String).data.getLast? = some '\n' ∧
    detect_python_issues ("x = 1\n" ++ "eval(y)") =
      detect_python_issues "x = 1\n" ++
        (detect_python_issues "eval(y)").map
          (fun i => { i with line := i.line + (splitlines "x = 1\n").length }) :=
  ⟨by decide, detect_concat_of_trailing_newline "x = 1\n" "eval(y)" (by decide)⟩

/-- Membership of `(n + j, x)` in an enumeration from `n`, given that `x`
is the `j`-th element. -/
theorem mem_enumFrom_of_getElem? {α : Type} {l : List α} {j : Nat} {x : α}
    (n : Nat) (h : l[j]? = some x) : (n + j, x) ∈ l.enumFrom n := by
  induction l generalizing j n with
  | nil => simp at h
  | cons a as ih =>
    cases j with
    | zero =>
      simp only [List.getElem?_cons_zero, Option.some_inj] at h
      subst h
      simp
    | succ j =>
      simp only [List.getElem?_cons_succ] at h
      have := ih (n := n + 1) h
      rw [show n + (j + 1) = (n + 1) + j from by omega]
      exact List.mem_cons_of_mem _ this

/-- C6: any line (0-based index `j`, so 1-based number `j + 1`) whose text
matches the case-insensitive pattern `password\\s*=\\s*["']` contributes a
security/critical issue at that line number with the message
`Hardcoded password detected`. -/
theorem detect_password_issue (content : String) (j : Nat) (line : String)
    (hline : (splitlines content)[j]? = some line)
    (hmatch : pwdSearch line = true) :
    (⟨"security", "critical", j + 1, "Hardcoded password detected",
      "Use environment variables or secure secret management"⟩ : Issue) ∈
      detect_python_issues content := by
  rw [detect_eq_flatMap]
  rw [List.mem_flatMap]
  refine ⟨(1 + j, line), mem_enumFrom_of_getElem? 1 hline, ?_⟩
  rw [show 1 + j = j + 1 from by omega]
  unfold lineIssues
  simp [hmatch]

/-- Witness for C6: the second line of a two-line file holds an uppercase
hardcoded password assignment; the detector reports it at line 2. -/
theorem detect_password_issue_witness :
    (splitlines "x = 1\nPASSWORD = \"hunter2\"")[1]? =
      some "PASSWORD = \"hunter2\"" ∧
    pwdSearch "PASSWORD = \"hunter2\"" = true ∧
    (⟨"security", "critical", 2, "Hardcoded password detected",
      "Use environment variables or secure secret management"⟩ : Issue) ∈
      detect_python_issues "x = 1\nPASSWORD = \"hunter2\"" :=
  ⟨by decide, by decide,
   detect_password_issue "x = 1\nPASSWORD = \"hunter2\"" 1
     "PASSWORD = \"hunter2\"" (by decide) (by decide)⟩

/-! ## `FileSystemMCP.list_files` and `search_in_files` -/

/-- `s.startswith(pre)`. -/
def strStartsWith (s pre : String) : Bool := startsWithL pre.data s.data

/-- Python `str.strip()` (ASCII whitespace). -/
def strTrim (s : String) : String :=
  ⟨((s.data.dropWhile isPySpace).reverse.dropWhile isPySpace).reverse⟩

/-- `fnmatch.fnmatch(name, pattern)` for the `*` and `?` constructs (the
only ones the program's patterns use). -/
def globMatch : List Char → List Char → Bool
  | [], [] => true
  | [], _ :: _ => false
  | '*' :: ps, [] => globMatch ps []
  | _ :: _, [] => false
  | '*' :: ps, c :: cs => globMatch ps (c :: cs) || globMatch ('*' :: ps) cs
  | '?' :: ps, _ :: cs => globMatch ps cs
  | p :: ps, c :: cs => (p == c) && globMatch ps cs
termination_by p s => (p.length, s.length)

/-- `pathlib.PurePath.suffix`: the extension after the last dot of the
final component, empty for dotfiles and names without an inner dot. -/
def suffixOf (name : String) : String :=
  let cs := name.data
  match (cs.enumFrom 0).foldl
      (fun acc p => if p.2 = '.' then some p.1 else acc) none with
  | some i => if 0 < i ∧ i + 1 < cs.length then ⟨cs.drop i⟩ else ""
  | none => ""

/-- The directory skip rule of `os.walk` in `list_files`: hidden
directories and the fixed ignore list. -/
def hiddenOrIgnored (d : String) : Bool :=
  strStartsWith d "." ||
    (["node_modules", "venv", "__pycache__", "dist", "build"]).contains d

/-- The extension allow-list of `FileSystemMCP`. -/
def allowed_extensions : List String :=
  [".py", ".js", ".ts", ".jsx", ".tsx", ".java", ".cpp", ".c", ".h",
   ".go", ".rs", ".php", ".rb", ".cs", ".swift", ".kt", ".scala",
   ".md", ".txt", ".json", ".yaml", ".yml", ".toml", ".xml", ".html", ".css"]

/-- One file record returned by `list_files`. -/
structure FileDescr where
  path : PathC
  size : Nat
  extension : String
  name : String
deriving DecidableEq

/-- Embedding of `FileSystemMCP.list_files`: every file under the root
whose directory chain survives the skip rule, whose name matches the glob
pattern, and whose extension is allow-listed, with its root-relative path. -/
def list_files (fs : FileSys) (repo : PathC) (pattern : String) :
    List FileDescr :=
  fs.entries.filterMap (fun e =>
    if repo.isPrefixOf e.1 then
      match (e.1.drop repo.length).getLast? with
      | none => none
      | some name =>
        if ((e.1.drop repo.length).dropLast.all (fun d => !hiddenOrIgnored d) &&
            globMatch pattern.data name.data &&
            allowed_extensions.contains (suffixOf name)) then
          some ⟨e.1.drop repo.length, e.2.length, suffixOf name, name⟩
        else none
    else none)

/-- The per-line predicate of `search_in_files`:
`query.lower() in line.lower()`. -/
def lineMatches (query line : String) : Bool :=
  containsSub (strToLower line) (strToLower query)

/-- One match record returned by `search_in_files`. -/
structure SearchMatch where
  file : PathC
  line : Nat
  content : String
  context : List String
deriving DecidableEq

/-- `FileSystemMCP._get_context`: the slice
`lines[max(0, n - 3) : min(len(lines), n + 2)]`. -/
def get_context (lines : List String) (line_num : Nat) : List String :=
  (lines.drop (line_num - 3)).take (min lines.length (line_num + 2) - (line_num - 3))

/-- The matches a single file's content contributes to `search_in_files`:
one record per (1-based) line containing the query case-insensitively. -/
def fileMatches (file : PathC) (query content : String) : List SearchMatch :=
  ((splitlines content).enumFrom 1).filterMap (fun p =>
    if lineMatches query p.2 then
      some ⟨file, p.1, strTrim p.2, get_context (splitlines content) p.1⟩
    else none)

/-- Embedding of `FileSystemMCP.search_in_files`: list the files matching
the pattern, re-read each by its relative path, and accumulate the
per-line matches of every successfully read file. -/
def search_in_files (fs : FileSys) (repo : PathC) (query file_pattern : String) :
    List SearchMatch :=
  (list_files fs repo file_pattern).foldl (fun acc fi =>
    acc ++ (match read_file fs repo fi.path with
            | .ok _ content _ _ => fileMatches fi.path query content
            | _ => [])) []

/-- The specification's count for one file: the number of lines of the
content that contain the query as a case-insensitive substring.  This is
the spec-side quantity `search_in_files` is compared against. -/
def spec_line_match_count (query content : String) : Nat :=
  ((splitlines content).filter (fun l => lineMatches query l)).length

/-! ### Lemmas for the search-count claim -/

theorem append_drop_of_isPrefixOf :
    ∀ (l p : List String), l.isPrefixOf p = true → l ++ p.drop l.length = p := by
  intro l
  induction l with
  | nil => intro p _; simp
  | cons a as ih =>
    intro p hp
    cases p with
    | nil => simp [List.isPrefixOf] at hp
    | cons b bs =>
      simp only [List.isPrefixOf, Bool.and_eq_true, beq_iff_eq] at hp
      obtain ⟨rfl, hp⟩ := hp
      simpa using ih bs hp

theorem isPrefixOf_append_self (l t : List String) :
    l.isPrefixOf (l ++ t) = true := by
  induction l with
  | nil => simp [List.isPrefixOf]
  | cons a as ih => simp [List.isPrefixOf, ih]

theorem foldl_normStep_no_dotdot (p : List String)
    (h : ∀ c ∈ p, c ≠ "..") : ∀ acc, p.foldl normStep acc = acc ++ p := by
  induction p with
  | nil => intro acc; simp
  | cons c cs ih =>
    intro acc
    have hc : c ≠ ".." := h c (List.mem_cons_self c cs)
    have hcs : ∀ x ∈ cs, x ≠ ".." := fun x hx => h x (List.mem_cons_of_mem c hx)
    simp only [List.foldl_cons, normStep, hc, if_false, ih hcs]
    simp

theorem normalizePath_of_no_dotdot (p : List String)
    (h : ∀ c ∈ p, c ≠ "..") : normalizePath p = p := by
  unfold normalizePath
  simpa using foldl_normStep_no_dotdot p h []

theorem length_filterMap_if_enumFrom {α β : Type} (pb : α → Bool)
    (g : Nat × α → β) (l : List α) :
    ∀ n, ((l.enumFrom n).filterMap
        (fun p => if pb p.2 then some (g p) else none)).length =
      (l.filter pb).length := by
  induction l with
  | nil => intro n; simp
  | cons x xs ih =>
    intro n
    simp only [List.enumFrom_cons, List.filterMap_cons, List.filter_cons]
    by_cases h : pb x <;> simp [h, ih (n + 1)]

theorem length_fileMatches (file : PathC) (q c : String) :
    (fileMatches file q c).length = spec_line_match_count q c := by
  unfold fileMatches spec_line_match_count
  exact length_filterMap_if_enumFrom (fun l => lineMatches q l)
    (fun p => SearchMatch.mk file p.1 (strTrim p.2)
      (get_context (splitlines c) p.1))
    (splitlines c) 1

/-- A file listed by `list_files` reads back successfully: its stored
content is found at the joined path, which needs no `..` resolution. -/
theorem read_file_of_mem_list_files (fs : FileSys) (repo : PathC)
    (pat : String) (hwf : ∀ e ∈ fs.entries, ∀ c ∈ e.1, c ≠ "..")
    (fi : FileDescr) (hfi : fi ∈ list_files fs repo pat) :
    ∃ content, fs.lookup (repo ++ fi.path) = some content ∧
      read_file fs repo fi.path =
        .ok fi.path content (splitlines content).length content.length := by
  unfold list_files at hfi
  rw [List.mem_filterMap] at hfi
  obtain ⟨e, he, hsome⟩ := hfi
  by_cases hpre : repo.isPrefixOf e.1 = true
  · rw [if_pos hpre] at hsome
    cases hlast : (e.1.drop repo.length).getLast? with
    | none => rw [hlast] at hsome; exact absurd hsome (by simp)
    | some name =>
      rw [hlast] at hsome
      dsimp only at hsome
      by_cases hcond : (((e.1.drop repo.length).dropLast.all
            (fun d => !hiddenOrIgnored d) &&
          globMatch pat.data name.data &&
          allowed_extensions.contains (suffixOf name)) = true)
      · rw [if_pos hcond] at hsome
        have hpath : fi.path = e.1.drop repo.length := by
          cases hsome; rfl
        have heq : repo ++ fi.path = e.1 := by
          rw [hpath]; exact append_drop_of_isPrefixOf repo e.1 hpre
        have hnod : ∀ c ∈ repo ++ fi.path, c ≠ ".." := by
          rw [heq]; exact hwf e he
        have hfind : (fs.entries.find? (fun x => decide (x.1 = repo ++ fi.path))).isSome := by
          rw [List.find?_isSome]
          exact ⟨e, he, by rw [heq]; simp⟩
        obtain ⟨ec, hec⟩ := Option.isSome_iff_exists.mp hfind
        have hlook : fs.lookup (repo ++ fi.path) = some ec.2 := by
          unfold FileSys.lookup
          rw [hec]
          rfl
        refine ⟨ec.2, hlook, ?_⟩
        unfold read_file
        rw [normalizePath_of_no_dotdot _ hnod, hlook]
        have hrel : is_relative_to (repo ++ fi.path) repo = true :=
          isPrefixOf_append_self repo fi.path
        simp [hrel]
      · rw [if_neg hcond] at hsome; exact absurd hsome (by simp)
  · rw [if_neg hpre] at hsome; exact absurd hsome (by simp)

/-- C4: the number of matches `search_in_files` returns equals the sum,
over all files returned by `list_files` with the same pattern, of the
number of that file's lines containing the query as a case-insensitive
substring.  The hypothesis states that the filesystem is well formed: no
stored path contains a `..` component. -/
theorem search_in_files_count (fs : FileSys) (repo : PathC)
    (query pat : String)
    (hwf : ∀ e ∈ fs.entries, ∀ c ∈ e.1, c ≠ "..") :
    (search_in_files fs repo query pat).length =
      ((list_files fs repo pat).map (fun fi =>
        spec_line_match_count query
          ((fs.lookup (repo ++ fi.path)).getD ""))).sum := by
  unfold search_in_files
  rw [foldl_append_eq_flatMap]
  simp only [List.nil_append]
  rw [List.flatMap_def, List.length_flatten, List.map_map]
  apply congrArg List.sum
  apply List.map_congr_left
  intro fi hfi
  obtain ⟨content, hlook, hread⟩ :=
    read_file_of_mem_list_files fs repo pat hwf fi hfi
  simp only [Function.comp_apply, hread, hlook, Option.getD_some]
  exact length_fileMatches fi.path query content

/-- Witness for C4 on a two-file corpus: one match inside each file, total
two matches. -/
theorem search_in_files_count_witness :
    (∀ e ∈ (FileSys.mk
        [(["repo", "auth.py"], "def login():\n    token = auth()\n"),
         (["repo", "README.md"], "Auth notes\nnothing here")]).entries,
      ∀ c ∈ e.1, c ≠ "..") ∧
    (search_in_files (FileSys.mk
        [(["repo", "auth.py"], "def login():\n    token = auth()\n"),
         (["repo", "README.md"], "Auth notes\nnothing here")])
      ["repo"] "auth" "*").length =
      ((list_files (FileSys.mk
          [(["repo", "auth.py"], "def login():\n    token = auth()\n"),
           (["repo", "README.md"], "Auth notes\nnothing here")])
        ["repo"] "*").map (fun fi =>
          spec_line_match_count "auth"
            (((FileSys.mk
                [(["repo", "auth.py"], "def login():\n    token = auth()\n"),
                 (["repo", "README.md"], "Auth notes\nnothing here")]).lookup
              (["repo"] ++ fi.path)).getD ""))).sum :=
  ⟨by decide,
   search_in_files_count (FileSys.mk
      [(["repo", "auth.py"], "def login():\n    token = auth()\n"),
       (["repo", "README.md"], "Auth notes\nnothing here")])
     ["repo"] "auth" "*" (by decide)⟩

/-! ## `CodeAnalyzerMCP.analyze_python_file`

The CPython parser (`ast.parse`) and the radon metrics (`cc_visit`,
`mi_visit`) are external to the analyzed code; they enter the embedding as
function parameters.  The syntax tree itself is embedded: the node kinds
`analyze_python_file` inspects (`FunctionDef`, `ClassDef`, `Import`,
`ImportFrom`; `AsyncFunctionDef` is a distinct kind and is not collected),
plus a catch-all carrying child nodes, and `ast.walk`'s breadth-first
traversal. -/

inductive PyNode where
  | functionDef (name : String) (lineno args decorators : Nat) (body : List PyNode)
  | asyncFunctionDef (name : String) (lineno args decorators : Nat) (body : List PyNode)
  | classDef (name : String) (lineno : Nat) (body : List PyNode)
  | importNames (names : List String)
  | importFrom (module : Option String)
  | other (children : List PyNode)

/-- Child nodes, as yielded by `ast.iter_child_nodes`. -/
def PyNode.children : PyNode → List PyNode
  | .functionDef _ _ _ _ b => b
  | .asyncFunctionDef _ _ _ _ b => b
  | .classDef _ _ b => b
  | .importNames _ => []
  | .importFrom _ => []
  | .other cs => cs

mutual

/-- Node count of a tree, the termination measure for the walk. -/
def PyNode.sz : PyNode → Nat
  | .functionDef _ _ _ _ b => 1 + szList b
  | .asyncFunctionDef _ _ _ _ b => 1 + szList b
  | .classDef _ _ b => 1 + szList b
  | .importNames _ => 1
  | .importFrom _ => 1
  | .other cs => 1 + szList cs

/-- Total node count of a forest. -/
def szList : List PyNode → Nat
  | [] => 0
  | n :: ns => PyNode.sz n + szList ns

end

theorem szList_append (l₁ l₂ : List PyNode) :
    szList (l₁ ++ l₂) = szList l₁ + szList l₂ := by
  induction l₁ with
  | nil => simp [szList]
  | cons n ns ih => simp [szList, ih]; omega

theorem szList_children_lt (n : PyNode) : szList n.children < n.sz := by
  cases n <;> simp [PyNode.children, PyNode.sz, szList]

/-- `ast.walk`: breadth-first traversal of a queue of nodes. -/
def walkBFS : List PyNode → List PyNode
  | [] => []
  | n :: rest => n :: walkBFS (rest ++ n.children)
termination_by l => szList l
decreasing_by
  rw [szList_append]
  have := szList_children_lt n
  simp [szList]
  omega

/-- A function entry of the analysis (`name`, `line`, `args`,
`decorators`), as built at lines 49–54 of `code_analyzer.py` — note that
no docstring field is recorded here. -/
structure FunctionInfo where
  name : String
  line : Nat
  args : Nat
  decorators : Nat
deriving DecidableEq

/-- A class entry of the analysis. -/
structure ClassInfo where
  name : String
  line : Nat
  methods : Nat
deriving DecidableEq

/-- One row of radon's per-function complexity table. -/
structure CCInfo where
  name : String
  complexity : Nat
  line : Nat
deriving DecidableEq

/-- The success payload of `analyze_python_file`. -/
structure FileAnalysis where
  file : String
  language : String
  complexity : Option (List CCInfo)
  maintainability_index : Option Rat
  functions : List FunctionInfo
  classes : List ClassInfo
  imports : List String
  issues : List Issue
deriving DecidableEq

/-- A parse failure, as raised by `ast.parse`: message and line number. -/
structure ParseErr where
  msg : String
  lineno : Nat
deriving DecidableEq

/-- Result of `analyze_python_file`: the analysis record, or the
syntax-error record carrying only file, message, and line, or the generic
error record carrying only file and message. -/
inductive AnalyzeResult where
  | ok (a : FileAnalysis)
  | errParse (file msg : String) (line : Nat)
  | errOther (file msg : String)
deriving DecidableEq

/-- `isinstance(n, ast.FunctionDef)` (excludes async definitions). -/
def isFunctionDefNode : PyNode → Bool
  | .functionDef _ _ _ _ _ => true
  | _ => false

/-- Embedding of `CodeAnalyzerMCP.analyze_python_file`: parse, then one
breadth-first walk collecting functions, classes and imports in traversal
order; complexity and maintainability come from the external metrics
(absent on their failure, mirroring the swallowed inner exceptions);
issues from the line scanner.  A parse failure short-circuits into the
error record. -/
def analyze_python_file (parse : String → Except ParseErr (List PyNode))
    (ccVisit : String → Option (List CCInfo))
    (miVisit : String → Option Rat)
    (content file_path : String) : AnalyzeResult :=
  match parse content with
  | .error e => .errParse file_path ("Syntax error: " ++ e.msg) e.lineno
  | .ok body =>
    .ok
      { file := file_path
        language := "python"
        complexity := ccVisit content
        maintainability_index := miVisit content
        functions := (walkBFS body).filterMap (fun n =>
          match n with
          | .functionDef nm ln ar dec _ => some ⟨nm, ln, ar, dec⟩
          | _ => none)
        classes := (walkBFS body).filterMap (fun n =>
          match n with
          | .classDef nm ln b =>
            some ⟨nm, ln, (b.filter isFunctionDefNode).length⟩
          | _ => none)
        imports := (walkBFS body).flatMap (fun n =>
          match n with
          | .importNames names => names
          | .importFrom m => [m.getD ""]
          | _ => [])
        issues := detect_python_issues content }

/-- C7: whenever the parser fails, `analyze_python_file` returns exactly
the syntax-error record — file, `Syntax error: ...` message, and the
failing line number — and never a (partial) analysis: the error
constructor carries no function, class, import, metric or issue data. -/
theorem analyze_parse_failure (parse : String → Except ParseErr (List PyNode))
    (ccVisit : String → Option (List CCInfo)) (miVisit : String → Option Rat)
    (content file_path : String) (e : ParseErr)
    (h : parse content = .error e) :
    analyze_python_file parse ccVisit miVisit content file_path =
      .errParse file_path ("Syntax error: " ++ e.msg) e.lineno ∧
    ∀ a, analyze_python_file parse ccVisit miVisit content file_path ≠
      .ok a := by
  unfold analyze_python_file
  rw [h]
  exact ⟨rfl, by simp⟩

/-- Witness for C7: a parser that fails at line 3 with `invalid syntax`. -/
theorem analyze_parse_failure_witness :
    ((fun _ => Except.error ⟨"invalid syntax", 3⟩ :
        String → Except ParseErr (List PyNode)) "def f(:" =
      .error ⟨"invalid syntax", 3⟩) ∧
    analyze_python_file (fun _ => Except.error ⟨"invalid syntax", 3⟩)
        (fun _ => none) (fun _ => none) "def f(:" "bad.py" =
      .errParse "bad.py" "Syntax error: invalid syntax" 3 :=
  ⟨rfl,
   (analyze_parse_failure (fun _ => Except.error ⟨"invalid syntax", 3⟩)
     (fun _ => none) (fun _ => none) "def f(:" "bad.py"
     ⟨"invalid syntax", 3⟩ rfl).1⟩

/-- C9: `analyze_python_file` is deterministic — two calls on equal
content (with the same parser and metric functions) return identical
results.  The embedding witnesses that the source computes the analysis as
a pure function of the content: the breadth-first walk order, the list
accumulations and the line scan contain no randomness or
iteration-order nondeterminism. -/
theorem analyze_deterministic (parse : String → Except ParseErr (List PyNode))
    (ccVisit : String → Option (List CCInfo)) (miVisit : String → Option Rat)
    (c₁ c₂ file_path : String) (h : c₁ = c₂) :
    analyze_python_file parse ccVisit miVisit c₁ file_path =
      analyze_python_file parse ccVisit miVisit c₂ file_path := by
  rw [h]

/-- Witness for C9 at a concrete parser, metric table and content. -/
theorem analyze_deterministic_witness :
    ("x = 1" : String) = "x = 1" ∧
    analyze_python_file (fun _ => Except.ok [PyNode.other []])
        (fun _ => some []) (fun _ => some 50) "x = 1" "a.py" =
      analyze_python_file (fun _ => Except.ok [PyNode.other []])
        (fun _ => some []) (fun _ => some 50) "x = 1" "a.py" :=
  ⟨rfl,
   analyze_deterministic (fun _ => Except.ok [PyNode.other []])
     (fun _ => some []) (fun _ => some 50) "x = 1" "x = 1" "a.py" rfl⟩

/-! ## `CodeAnalyzerMCP.suggest_improvements`

`suggest_improvements` reads an analysis dictionary defensively
(`analysis.get('metrics', \x7b\x7d)`, `f.get('docstring')`): a function entry
may or may not carry a docstring key (entries built by
`analyze_python_file` carry none; entries built by `find_functions` carry
an optional one).  `FuncRec.docstring = none` models an absent-or-`None`
key, `some ""` an empty one — both falsy under `not f.get('docstring')`. -/

/-- A function entry as read by the suggestion heuristics. -/
structure FuncRec where
  name : String
  docstring : Option String
deriving DecidableEq

/-- The parts of an analysis record `suggest_improvements` consults. -/
structure AnalysisRec where
  complexity : Option (List CCInfo)
  maintainability_index : Option Rat
  functions : List FuncRec
deriving DecidableEq

/-- `not f.get('docstring')`: the docstring is absent, `None`, or empty. -/
def missingDoc (f : FuncRec) : Bool := f.docstring.getD "" = ""

/-- The documentation suggestion string for `n` undocumented functions. -/
def docMsg (n : Nat) : String :=
  "📝 " ++ toString n ++
    " functions lack docstrings. Add documentation for better maintainability."

/-- The high-complexity suggestion string. -/
def cplxMsg (n : Nat) (names : List String) : String :=
  "⚠️ Found " ++ toString n ++
    " functions with high complexity (>10). Consider refactoring: " ++
    String.intercalate ", " names

/-- The low-maintainability suggestion string (`fmtted` stands for the
`.1f`-formatted score). -/
def miMsg (fmtted : String) : String :=
  "⚠️ Low maintainability index (" ++ fmtted ++
    "). Consider refactoring for better code quality."

/-- Embedding of `CodeAnalyzerMCP.suggest_improvements`: the three fixed
heuristics in source order — complexity above 10 (naming up to 3
offenders), maintainability index below 20, more than 3 functions without
docstrings.  `fmtMI` abstracts Python's `.1f` float formatting. -/
def suggest_improvements (fmtMI : Rat → String) (a : AnalysisRec) :
    List String :=
  (match a.complexity with
   | some cc =>
     if (cc.filter (fun i => 10 < i.complexity)) ≠ [] then
       [cplxMsg (cc.filter (fun i => 10 < i.complexity)).length
         (((cc.filter (fun i => 10 < i.complexity)).take 3).map
           (fun i => i.name))]
     else []
   | none => []) ++
  (match a.maintainability_index with
   | some mi => if mi < 20 then [miMsg (fmtMI mi)] else []
   | none => []) ++
  (if 3 < (a.functions.filter missingDoc).length then
    [docMsg (a.functions.filter missingDoc).length]
   else [])

theorem ne_of_data_head (x y : String) (a b : Char) (hab : a ≠ b)
    (hx : x.data.head? = some a) (hy : y.data.head? = some b) : x ≠ y := by
  intro h
  rw [h, hy] at hx
  exact hab (Option.some.inj hx).symm

theorem head?_append_of_head? {l₁ l₂ : List Char} {a : Char}
    (h : l₁.head? = some a) : (l₁ ++ l₂).head? = some a := by
  cases l₁ <;> simp_all

theorem docMsg_head (n : Nat) : (docMsg n).data.head? = some '📝' := by
  unfold docMsg
  rw [String.data_append, String.data_append]
  apply head?_append_of_head?
  apply head?_append_of_head?
  rfl

theorem cplxMsg_head (n : Nat) (names : List String) :
    (cplxMsg n names).data.head? = some '⚠' := by
  unfold cplxMsg
  rw [String.data_append, String.data_append, String.data_append]
  apply head?_append_of_head?
  apply head?_append_of_head?
  apply head?_append_of_head?
  rfl

theorem miMsg_head (s : String) : (miMsg s).data.head? = some '⚠' := by
  unfold miMsg
  rw [String.data_append, String.data_append]
  apply head?_append_of_head?
  apply head?_append_of_head?
  rfl

/-- The documentation message never coincides with a complexity or
maintainability message: their leading characters differ. -/
theorem docMsg_not_mem_metric_parts (fmtMI : Rat → String) (a : AnalysisRec)
    (n : Nat) :
    docMsg n ∉
      ((match a.complexity with
        | some cc =>
          if (cc.filter (fun i => 10 < i.complexity)) ≠ [] then
            [cplxMsg (cc.filter (fun i => 10 < i.complexity)).length
              (((cc.filter (fun i => 10 < i.complexity)).take 3).map
                (fun i => i.name))]
          else []
        | none => []) ++
       (match a.maintainability_index with
        | some mi => if mi < 20 then [miMsg (fmtMI mi)] else []
        | none => [])) := by
  intro hmem
  rcases List.mem_append.mp hmem with h1 | h2
  · cases hc : a.complexity with
    | none => rw [hc] at h1; simp at h1
    | some cc =>
      rw [hc] at h1
      dsimp only at h1
      by_cases hne : (cc.filter (fun i => 10 < i.complexity)) ≠ []
      · rw [if_pos hne] at h1
        exact ne_of_data_head _ _ '📝' '⚠' (by decide)
          (docMsg_head _) (cplxMsg_head _ _) (List.mem_singleton.mp h1)
      · rw [if_neg hne] at h1; simp at h1
  · cases hm : a.maintainability_index with
    | none => rw [hm] at h2; simp at h2
    | some mi =>
      rw [hm] at h2
      dsimp only at h2
      by_cases hlt : mi < 20
      · rw [if_pos hlt] at h2
        exact ne_of_data_head _ _ '📝' '⚠' (by decide)
          (docMsg_head _) (miMsg_head _) (List.mem_singleton.mp h2)
      · rw [if_neg hlt] at h2; simp at h2

/-- C8: the documentation suggestion appears in `suggest_improvements`'s
output exactly when strictly more than 3 of the record's function entries
lack a docstring; in particular a record whose functions all carry
(nonempty) docstrings never yields any documentation suggestion. -/
theorem suggest_doc_iff (fmtMI : Rat → String) (a : AnalysisRec) :
    (docMsg (a.functions.filter missingDoc).length ∈
        suggest_improvements fmtMI a ↔
      3 < (a.functions.filter missingDoc).length) ∧
    ((∀ f ∈ a.functions, missingDoc f = false) →
      ∀ n, docMsg n ∉ suggest_improvements fmtMI a) := by
  constructor
  · constructor
    · intro hmem
      unfold suggest_improvements at hmem
      rcases List.mem_append.mp hmem with h12 | h3
      · exact absurd h12 (docMsg_not_mem_metric_parts fmtMI a _)
      · by_cases h : 3 < (a.functions.filter missingDoc).length
        · exact h
        · rw [if_neg h] at h3; simp at h3
    · intro h
      unfold suggest_improvements
      refine List.mem_append.mpr (Or.inr ?_)
      rw [if_pos h]
      exact List.mem_singleton.mpr rfl
  · intro hall n hmem
    have hfil : a.functions.filter missingDoc = [] :=
      List.filter_eq_nil_iff.mpr (by intro f hf; simp [hall f hf])
    unfold suggest_improvements at hmem
    rcases List.mem_append.mp hmem with h12 | h3
    · exact absurd h12 (docMsg_not_mem_metric_parts fmtMI a n)
    · rw [hfil] at h3
      simp at h3

/-- Witness for C8: a record with 4 undocumented functions yields the
documentation suggestion; one with 4 documented functions yields none. -/
theorem suggest_doc_iff_witness :
    (3 < ((AnalysisRec.mk none none
        [⟨"a", none⟩, ⟨"b", none⟩, ⟨"c", none⟩, ⟨"d", none⟩]).functions.filter
          missingDoc).length ∧
     docMsg ((AnalysisRec.mk none none
        [⟨"a", none⟩, ⟨"b", none⟩, ⟨"c", none⟩, ⟨"d", none⟩]).functions.filter
          missingDoc).length ∈
       suggest_improvements (fun _ => "")
         (AnalysisRec.mk none none
           [⟨"a", none⟩, ⟨"b", none⟩, ⟨"c", none⟩, ⟨"d", none⟩])) ∧
    ((∀ f ∈ (AnalysisRec.mk none none
        [⟨"a", some "doc a"⟩, ⟨"b", some "doc b"⟩, ⟨"c", some "doc c"⟩,
         ⟨"d", some "doc d"⟩]).functions, missingDoc f = false) ∧
     docMsg 4 ∉
       suggest_improvements (fun _ => "")
         (AnalysisRec.mk none none
           [⟨"a", some "doc a"⟩, ⟨"b", some "doc b"⟩, ⟨"c", some "doc c"⟩,
            ⟨"d", some "doc d"⟩])) :=
  ⟨⟨by decide,
    (suggest_doc_iff (fun _ => "")
      (AnalysisRec.mk none none
        [⟨"a", none⟩, ⟨"b", none⟩, ⟨"c", none⟩, ⟨"d", none⟩])).1.mpr
      (by decide)⟩,
   ⟨by decide,
    (suggest_doc_iff (fun _ => "")
      (AnalysisRec.mk none none
        [⟨"a", some "doc a"⟩, ⟨"b", some "doc b"⟩, ⟨"c", some "doc c"⟩,
         ⟨"d", some "doc d"⟩])).2 (by decide) 4⟩⟩

end CodeAssistant
